import Mathlib

set_option linter.unusedSectionVars false

/-!
Shallow embedding of `src/misc/hashtable.py` from noltron000/CS-1-2_tweet-generator:
a fixed-capacity chaining hash table over singly-linked buckets.

The backing `LinkedList` class is imported by the source file but its code is
not part of the sources; the spec treats it as an external collaborator with a
minimal contract (prepend / find / delete-by-located-entry / items / size), so
the bucket operations below are modelled from that contract.

Python specifics captured here:
* `hash(key)` is an arbitrary deterministic function to `int`; it is a
  parameter `hash : K → Int` of every keyed operation.
* Python's `%` on an `int` with a positive modulus agrees with `Int.emod`;
  `x % 0` raises `ZeroDivisionError`, modelled as the `zeroDivision` error.
* `raise KeyError` is modelled as the `keyNotFound` error; every fallible
  method returns `Except HTError`.
-/

/-- Errors a hash-table operation can raise: `KeyError` for a missing key,
`ZeroDivisionError` from `hash(key) % 0` when the table has no buckets. -/
inductive HTError where
  | keyNotFound : HTError
  | zeroDivision : HTError

deriving instance DecidableEq, Repr for HTError

namespace LinkedList

/-- Modelled from the spec: `prepend(entry)` inserts `entry` at the front of
the bucket's chain (the `LinkedList` source is not among the source files). -/
def prepend (entry : α) (l : List α) : List α :=
  entry :: l

/-- Modelled from the spec: `find(predicate)` returns the first entry of the
chain, front to back, satisfying the predicate, or none. -/
def find (p : α → Bool) (l : List α) : Option α :=
  l.find? p

/-- Modelled from the spec: `delete(located-entry)` removes the referenced
entry from the chain; the located entry passed in is the one `find` returned,
so the first occurrence equal to it is removed. -/
def delete [DecidableEq α] (item : α) (l : List α) : List α :=
  l.eraseP (fun x => decide (x = item))

/-- Modelled from the spec: `items()` is the front-to-back traversal of the
chain's entries. -/
def items (l : List α) : List α :=
  l

/-- Modelled from the spec: `size` is the chain's current entry count. -/
def size (l : List α) : Nat :=
  l.length

end LinkedList

/-- `HashTable` owns a fixed-length sequence of buckets; each bucket is a
chain of `(key, value)` entries, front of the chain first. -/
structure HashTable (K V : Type) where
  buckets : List (List (K × V))

deriving instance DecidableEq, Repr for HashTable

namespace HashTable

variable {K V : Type} [DecidableEq K] [DecidableEq V]

/-- `__init__(init_size)`: a new list of `init_size` empty linked lists. -/
def mkTable (K V : Type) (initSize : Nat) : HashTable K V :=
  ⟨List.replicate initSize []⟩

/-- Number of buckets, `len(self.buckets)`. -/
def bucketCount (t : HashTable K V) : Nat :=
  t.buckets.length

/-- `_bucket_index(key)`: `hash(key) % len(self.buckets)`. Python `%` with a
positive modulus is `Int.emod`; with modulus `0` it raises
`ZeroDivisionError`. -/
def bucketIndex (hash : K → Int) (t : HashTable K V) (k : K) : Except HTError Nat :=
  if t.buckets.length = 0 then
    Except.error HTError.zeroDivision
  else
    Except.ok ((hash k).emod (t.buckets.length : Int)).toNat

/-- The bucket at a given index (`self.buckets[index]`; indices produced by
`bucketIndex` are always in range). -/
def bucketAt (t : HashTable K V) (index : Nat) : List (K × V) :=
  t.buckets.getD index []

/-- The key-equality test `key == myKey` used by the scans in `contains`,
`get` and by `delete`'s `quality` lambda `data[0] == myKey`. -/
def keyMatch (k : K) : K × V → Bool :=
  fun e => decide (e.1 = k)

/-- `contains(myKey)`: locate the bucket and linearly scan its entries for a
key equal to `myKey`. -/
def contains (hash : K → Int) (t : HashTable K V) (k : K) : Except HTError Bool := do
  let index ← bucketIndex hash t k
  let bucket := bucketAt t index
  pure (LinkedList.find (keyMatch k) (LinkedList.items bucket)).isSome

/-- `get(myKey)`: same scan as `contains`; return the matching entry's value,
or raise `KeyError`. -/
def get (hash : K → Int) (t : HashTable K V) (k : K) : Except HTError V := do
  let index ← bucketIndex hash t k
  let bucket := bucketAt t index
  match LinkedList.find (keyMatch k) (LinkedList.items bucket) with
  | some e => pure e.2
  | none => Except.error HTError.keyNotFound

/-- `delete(myKey)`: `find` the entry matching `quality`, and `delete` it from
the bucket if found, else raise `KeyError`. -/
def delete (hash : K → Int) (t : HashTable K V) (k : K) :
    Except HTError (HashTable K V) := do
  let index ← bucketIndex hash t k
  let bucket := bucketAt t index
  match LinkedList.find (keyMatch k) bucket with
  | some result => pure ⟨t.buckets.set index (LinkedList.delete result bucket)⟩
  | none => Except.error HTError.keyNotFound

/-- `set(myKey, myValue)`: if `contains(myKey)`, `delete(myKey)` first; then
prepend `(myKey, myValue)`. The Python local `bucket` aliases the mutable
linked list, so the prepend acts on the bucket's post-delete contents: here
the bucket is re-read from the post-delete table. -/
def set (hash : K → Int) (t : HashTable K V) (k : K) (v : V) :
    Except HTError (HashTable K V) := do
  let index ← bucketIndex hash t k
  let c ← contains hash t k
  let t' ← if c then delete hash t k else pure t
  pure ⟨t'.buckets.set index (LinkedList.prepend (k, v) (bucketAt t' index))⟩

/-- `items()`: for each bucket in array order, extend with the bucket's
front-to-back entries. -/
def items (t : HashTable K V) : List (K × V) :=
  t.buckets.foldl (fun allItems bucket => allItems ++ LinkedList.items bucket) []

/-- `keys()`: for each bucket in array order, append each entry's key. -/
def keys (t : HashTable K V) : List K :=
  t.buckets.foldl
    (fun allKeys bucket => allKeys ++ (LinkedList.items bucket).map Prod.fst) []

/-- `values()`: for each bucket in array order, append each entry's value. -/
def values (t : HashTable K V) : List V :=
  t.buckets.foldl
    (fun allValues bucket => allValues ++ (LinkedList.items bucket).map Prod.snd) []

/-- `length()`: sum of the buckets' `size` counters. -/
def length (t : HashTable K V) : Nat :=
  t.buckets.foldl (fun counter bucket => counter + LinkedList.size bucket) 0

/-- `__str__`: `'{' + ', '.join('{!r}: {!r}'.format(key, val) for items) + '}'`,
with the rendering of keys and values (Python `repr`) passed in as functions. -/
def strRepr (reprK : K → String) (reprV : V → String) (t : HashTable K V) : String :=
  let itemStrs := (items t).map (fun e => reprK e.1 ++ ": " ++ reprV e.2)
  "\x7b" ++ String.intercalate ", " itemStrs ++ "\x7d"

/-- The bucket index a key hashes to in a table of `n` buckets (total
function used to state invariants; agrees with `bucketIndex` for `0 < n`). -/
def bIdx (hash : K → Int) (n : Nat) (k : K) : Nat :=
  ((hash k).emod (n : Int)).toNat

/-- Key uniqueness as the spec states it: each key appears in at most one
bucket and at most once within that bucket, i.e. the keys of the table-wide
entry enumeration are pairwise distinct. -/
def KeyUnique (t : HashTable K V) : Prop :=
  ((items t).map Prod.fst).Nodup

/-- Structural invariant of reachable tables: every entry sits in the bucket
its key hashes to, and no bucket holds two entries with the same key. -/
def WellFormed (hash : K → Int) (t : HashTable K V) : Prop :=
  ∀ i < t.buckets.length,
    (∀ e ∈ bucketAt t i, bIdx hash t.buckets.length e.1 = i) ∧
      ((bucketAt t i).map Prod.fst).Nodup

/-- Tables reachable from construction by any sequence of successful `set`
and `delete` calls. -/
inductive Reachable (hash : K → Int) : HashTable K V → Prop where
  | init (n : Nat) : Reachable hash (mkTable K V n)
  | step_set {t t' : HashTable K V} {k : K} {v : V} :
      Reachable hash t → set hash t k v = Except.ok t' → Reachable hash t'
  | step_delete {t t' : HashTable K V} {k : K} :
      Reachable hash t → delete hash t k = Except.ok t' → Reachable hash t'

end HashTable

/-- Hash function used by the concrete witnesses: the number itself, as
Python's builtin `hash` behaves on small non-negative `int` keys. -/
def natHash : Nat → Int :=
  fun n => (n : Int)

namespace HashTable

variable {K V : Type} [DecidableEq K] [DecidableEq V]

theorem items_foldl (l : List (List (K × V))) (acc : List (K × V)) :
    l.foldl (fun allItems bucket => allItems ++ LinkedList.items bucket) acc =
      acc ++ l.flatten := by
  induction l generalizing acc with
  | nil => simp
  | cons b t ih =>
    rw [List.foldl_cons, ih]
    simp [LinkedList.items]

theorem items_eq_flatten (t : HashTable K V) : items t = t.buckets.flatten := by
  simp [items, items_foldl]

theorem keys_foldl (l : List (List (K × V))) (acc : List K) :
    l.foldl (fun allKeys bucket => allKeys ++ (LinkedList.items bucket).map Prod.fst)
        acc =
      acc ++ l.flatten.map Prod.fst := by
  induction l generalizing acc with
  | nil => simp
  | cons b t ih =>
    rw [List.foldl_cons, ih]
    simp [LinkedList.items]

theorem keys_eq_map (t : HashTable K V) : keys t = (items t).map Prod.fst := by
  simp [keys, keys_foldl, items_eq_flatten]

theorem length_foldl (l : List (List (K × V))) (acc : Nat) :
    l.foldl (fun counter bucket => counter + LinkedList.size bucket) acc =
      acc + (l.map List.length).sum := by
  induction l generalizing acc with
  | nil => simp
  | cons b t ih =>
    rw [List.foldl_cons, ih]
    simp [LinkedList.size]
    omega

theorem length_eq_sum (t : HashTable K V) :
    length t = (t.buckets.map List.length).sum := by
  simp [length, length_foldl]

theorem bIdx_lt (hash : K → Int) (k : K) {n : Nat} (hn : 0 < n) :
    bIdx hash n k < n := by
  have hpos : (0 : Int) < (n : Int) := by exact_mod_cast hn
  have hnz : (n : Int) ≠ 0 := ne_of_gt hpos
  have hnonneg := Int.emod_nonneg (hash k) hnz
  have hlt := Int.emod_lt_of_pos (hash k) hpos
  have hdef : (hash k).emod (n : Int) = hash k % (n : Int) := rfl
  rw [bIdx, hdef, Int.toNat_lt hnonneg]
  exact hlt

theorem bucketIndex_eq_ok (hash : K → Int) (t : HashTable K V) (k : K)
    (hn : t.buckets.length ≠ 0) :
    bucketIndex hash t k = Except.ok (bIdx hash t.buckets.length k) := by
  simp [bucketIndex, hn, bIdx]

theorem contains_eq_ok (hash : K → Int) (t : HashTable K V) (k : K)
    (hn : t.buckets.length ≠ 0) :
    contains hash t k =
      Except.ok
        ((bucketAt t (bIdx hash t.buckets.length k)).find? (keyMatch k)).isSome := by
  rw [contains, bucketIndex_eq_ok hash t k hn]
  rfl

theorem get_eq_of_find (hash : K → Int) (t : HashTable K V) (k : K) {e : K × V}
    (hn : t.buckets.length ≠ 0)
    (hfind : (bucketAt t (bIdx hash t.buckets.length k)).find? (keyMatch k) = some e) :
    get hash t k = Except.ok e.2 := by
  rw [get, bucketIndex_eq_ok hash t k hn]
  show (match (bucketAt t (bIdx hash t.buckets.length k)).find? (keyMatch k) with
    | some e => Except.ok e.2
    | none => Except.error HTError.keyNotFound) = _
  rw [hfind]

theorem get_eq_of_none (hash : K → Int) (t : HashTable K V) (k : K)
    (hn : t.buckets.length ≠ 0)
    (hfind : (bucketAt t (bIdx hash t.buckets.length k)).find? (keyMatch k) = none) :
    get hash t k = Except.error HTError.keyNotFound := by
  rw [get, bucketIndex_eq_ok hash t k hn]
  show (match (bucketAt t (bIdx hash t.buckets.length k)).find? (keyMatch k) with
    | some e => Except.ok e.2
    | none => Except.error HTError.keyNotFound) = _
  rw [hfind]

theorem linkedList_delete_found {p : K × V → Bool} :
    ∀ {l : List (K × V)} {e : K × V},
      l.find? p = some e → LinkedList.delete e l = l.eraseP p
  | [], e, h => by simp [List.find?] at h
  | a :: l, e, h => by
    rw [List.find?_cons] at h
    cases hpa : p a with
    | true =>
      rw [hpa] at h
      have hea : e = a := by
        simpa using h.symm
      subst hea
      simp [LinkedList.delete, List.eraseP_cons, hpa]
    | false =>
      rw [hpa] at h
      have hne : decide (a = e) = false := by
        simp only [decide_eq_false_iff_not]
        intro hae
        have hpe := List.find?_some h
        rw [← hae] at hpe
        simp [hpa] at hpe
      have ih := linkedList_delete_found (l := l) (e := e) h
      rw [LinkedList.delete] at ih
      rw [LinkedList.delete]
      simp [List.eraseP_cons, hpa, hne, ih]

theorem delete_eq_of_find (hash : K → Int) (t : HashTable K V) (k : K) {e : K × V}
    (hn : t.buckets.length ≠ 0)
    (hfind : (bucketAt t (bIdx hash t.buckets.length k)).find? (keyMatch k) = some e) :
    delete hash t k =
      Except.ok
        ⟨t.buckets.set (bIdx hash t.buckets.length k)
          ((bucketAt t (bIdx hash t.buckets.length k)).eraseP (keyMatch k))⟩ := by
  rw [delete, bucketIndex_eq_ok hash t k hn]
  show (match LinkedList.find (keyMatch k) (bucketAt t (bIdx hash t.buckets.length k)) with
    | some result =>
        Except.ok
          (⟨t.buckets.set (bIdx hash t.buckets.length k)
            (LinkedList.delete result (bucketAt t (bIdx hash t.buckets.length k)))⟩ :
            HashTable K V)
    | none => Except.error HTError.keyNotFound) = _
  rw [LinkedList.find, hfind]
  simp [linkedList_delete_found hfind]

theorem delete_eq_of_none (hash : K → Int) (t : HashTable K V) (k : K)
    (hn : t.buckets.length ≠ 0)
    (hfind : (bucketAt t (bIdx hash t.buckets.length k)).find? (keyMatch k) = none) :
    delete hash t k = Except.error HTError.keyNotFound := by
  rw [delete, bucketIndex_eq_ok hash t k hn]
  show (match LinkedList.find (keyMatch k) (bucketAt t (bIdx hash t.buckets.length k)) with
    | some result =>
        Except.ok
          (⟨t.buckets.set (bIdx hash t.buckets.length k)
            (LinkedList.delete result (bucketAt t (bIdx hash t.buckets.length k)))⟩ :
            HashTable K V)
    | none => Except.error HTError.keyNotFound) = _
  rw [LinkedList.find, hfind]

theorem bucketIndex_zero (hash : K → Int) (t : HashTable K V) (k : K)
    (hz : t.buckets.length = 0) :
    bucketIndex hash t k = Except.error HTError.zeroDivision := by
  simp [bucketIndex, hz]

theorem contains_zero (hash : K → Int) (t : HashTable K V) (k : K)
    (hz : t.buckets.length = 0) :
    contains hash t k = Except.error HTError.zeroDivision := by
  rw [contains, bucketIndex_zero hash t k hz]
  rfl

theorem get_zero (hash : K → Int) (t : HashTable K V) (k : K)
    (hz : t.buckets.length = 0) :
    get hash t k = Except.error HTError.zeroDivision := by
  rw [get, bucketIndex_zero hash t k hz]
  rfl

theorem delete_zero (hash : K → Int) (t : HashTable K V) (k : K)
    (hz : t.buckets.length = 0) :
    delete hash t k = Except.error HTError.zeroDivision := by
  rw [delete, bucketIndex_zero hash t k hz]
  rfl

theorem set_zero (hash : K → Int) (t : HashTable K V) (k : K) (v : V)
    (hz : t.buckets.length = 0) :
    set hash t k v = Except.error HTError.zeroDivision := by
  rw [set, bucketIndex_zero hash t k hz]
  rfl

theorem set_eq_of_not_contains (hash : K → Int) (t : HashTable K V) (k : K) (v : V)
    (hn : t.buckets.length ≠ 0)
    (hfind : (bucketAt t (bIdx hash t.buckets.length k)).find? (keyMatch k) = none) :
    set hash t k v =
      Except.ok
        ⟨t.buckets.set (bIdx hash t.buckets.length k)
          ((k, v) :: bucketAt t (bIdx hash t.buckets.length k))⟩ := by
  rw [set, bucketIndex_eq_ok hash t k hn, contains_eq_ok hash t k hn, hfind]
  rfl

theorem set_eq_of_contains (hash : K → Int) (t : HashTable K V) (k : K) (v : V)
    {e : K × V} (hn : t.buckets.length ≠ 0)
    (hfind : (bucketAt t (bIdx hash t.buckets.length k)).find? (keyMatch k) = some e) :
    set hash t k v =
      (delete hash t k).bind fun tm =>
        Except.ok
          ⟨tm.buckets.set (bIdx hash t.buckets.length k)
            ((k, v) :: bucketAt tm (bIdx hash t.buckets.length k))⟩ := by
  rw [set, bucketIndex_eq_ok hash t k hn, contains_eq_ok hash t k hn, hfind]
  rfl

theorem set_ok_cases {hash : K → Int} {t t' : HashTable K V} {k : K} {v : V}
    (h : set hash t k v = Except.ok t') :
    t.buckets.length ≠ 0 ∧
      ∃ tm : HashTable K V,
        tm.buckets.length = t.buckets.length ∧
          t' =
              ⟨tm.buckets.set (bIdx hash t.buckets.length k)
                ((k, v) :: bucketAt tm (bIdx hash t.buckets.length k))⟩ ∧
            ((tm = t ∧
                (bucketAt t (bIdx hash t.buckets.length k)).find? (keyMatch k) =
                  none) ∨
              (∃ e,
                (bucketAt t (bIdx hash t.buckets.length k)).find? (keyMatch k) =
                    some e ∧
                  tm =
                    ⟨t.buckets.set (bIdx hash t.buckets.length k)
                      ((bucketAt t (bIdx hash t.buckets.length k)).eraseP
                        (keyMatch k))⟩)) := by
  by_cases hz : t.buckets.length = 0
  · rw [set_zero hash t k v hz] at h
    exact absurd h (by simp)
  · refine ⟨hz, ?_⟩
    cases hfind : (bucketAt t (bIdx hash t.buckets.length k)).find? (keyMatch k) with
    | none =>
      rw [set_eq_of_not_contains hash t k v hz hfind] at h
      refine ⟨t, rfl, ?_, Or.inl ⟨rfl, rfl⟩⟩
      exact (Except.ok.inj h).symm
    | some e =>
      rw [set_eq_of_contains hash t k v hz hfind,
        delete_eq_of_find hash t k hz hfind] at h
      refine ⟨_, ?_, ?_, Or.inr ⟨e, rfl, rfl⟩⟩
      · exact List.length_set t.buckets _ _
      · exact (Except.ok.inj h).symm

theorem getD_set_self (l : List (List (K × V))) (i : Nat) (x : List (K × V))
    (hi : i < l.length) : (l.set i x).getD i [] = x := by
  rw [List.getD_eq_getElem _ _ (by rw [List.length_set]; exact hi)]
  exact List.getElem_set_self _

theorem getD_set_ne (l : List (List (K × V))) (i j : Nat) (x : List (K × V))
    (hij : i ≠ j) : (l.set i x).getD j [] = l.getD j [] := by
  rw [List.getD_eq_getElem?_getD, List.getD_eq_getElem?_getD,
    List.getElem?_set_ne hij]

theorem sum_length_set {α : Type} :
    ∀ (l : List (List α)) (i : Nat) (x : List α), i < l.length →
      ((l.set i x).map List.length).sum + (l.getD i []).length =
        (l.map List.length).sum + x.length
  | [], i, x, hi => by simp at hi
  | a :: t, 0, x, _ => by
    simp
    omega
  | a :: t, i + 1, x, hi => by
    rw [List.set_cons_succ, List.map_cons, List.sum_cons, List.getD_cons_succ,
      List.map_cons, List.sum_cons]
    have ih := sum_length_set t i x (by simpa using hi)
    omega

theorem countP_keyMatch_of_nodup {k : K} {v : V} :
    ∀ {l : List (K × V)}, (l.map Prod.fst).Nodup → (k, v) ∈ l →
      l.countP (keyMatch k) = 1
  | [], _, hmem => by simp at hmem
  | a :: l, hnd, hmem => by
    rw [List.map_cons, List.nodup_cons] at hnd
    obtain ⟨hna, hnd'⟩ := hnd
    rcases List.mem_cons.mp hmem with heq | hmem'
    · have hka : keyMatch k a = true := by
        rw [← heq]
        simp [keyMatch]
      rw [List.countP_cons_of_pos _ _ hka]
      have hzero : l.countP (keyMatch k) = 0 := by
        rw [List.countP_eq_zero]
        intro x hx
        simp only [keyMatch, decide_eq_true_eq]
        intro hxk
        apply hna
        rw [← heq]
        exact hxk ▸ List.mem_map.mpr ⟨x, hx, rfl⟩
      omega
    · have hkl : k ∈ l.map Prod.fst := List.mem_map.mpr ⟨(k, v), hmem', rfl⟩
      have hka : ¬(keyMatch k a = true) := by
        simp only [keyMatch, decide_eq_true_eq]
        intro hak
        exact hna (hak ▸ hkl)
      rw [List.countP_cons_of_neg _ _ hka]
      exact countP_keyMatch_of_nodup hnd' hmem'

theorem eraseP_keyMatch_find_none {k : K} :
    ∀ {l : List (K × V)}, (l.map Prod.fst).Nodup →
      (l.eraseP (keyMatch k)).find? (keyMatch k) = none
  | [], _ => by simp
  | a :: l, hnd => by
    rw [List.map_cons, List.nodup_cons] at hnd
    obtain ⟨hna, hnd'⟩ := hnd
    cases hka : keyMatch k a with
    | true =>
      rw [List.eraseP_cons_of_pos hka, List.find?_eq_none]
      intro x hx
      simp only [keyMatch, decide_eq_true_eq] at hka ⊢
      intro hxk
      apply hna
      rw [show a.1 = x.1 from hka.trans hxk.symm]
      exact List.mem_map.mpr ⟨x, hx, rfl⟩
    | false =>
      rw [List.eraseP_cons_of_neg (by simp [hka]),
        List.find?_cons_of_neg _ (by simp [hka])]
      exact eraseP_keyMatch_find_none hnd'

theorem delete_ok_cases {hash : K → Int} {t t' : HashTable K V} {k : K}
    (h : delete hash t k = Except.ok t') :
    t.buckets.length ≠ 0 ∧
      ∃ e,
        (bucketAt t (bIdx hash t.buckets.length k)).find? (keyMatch k) = some e ∧
          t' =
            ⟨t.buckets.set (bIdx hash t.buckets.length k)
              ((bucketAt t (bIdx hash t.buckets.length k)).eraseP (keyMatch k))⟩ := by
  by_cases hz : t.buckets.length = 0
  · rw [delete_zero hash t k hz] at h
    exact absurd h (by simp)
  · refine ⟨hz, ?_⟩
    cases hfind : (bucketAt t (bIdx hash t.buckets.length k)).find? (keyMatch k) with
    | none =>
      rw [delete_eq_of_none hash t k hz hfind] at h
      exact absurd h (by simp)
    | some e =>
      rw [delete_eq_of_find hash t k hz hfind] at h
      exact ⟨e, rfl, (Except.ok.inj h).symm⟩

theorem wellFormed_mkTable (hash : K → Int) (n : Nat) :
    WellFormed hash (mkTable K V n) := by
  intro i hi
  have hb : bucketAt (mkTable K V n) i = [] := by
    rw [mkTable] at hi
    simp only [List.length_replicate] at hi
    rw [mkTable, bucketAt, List.getD_eq_getElem _ _ (by simpa using hi)]
    exact List.getElem_replicate _ _
  constructor
  · intro e he
    rw [hb] at he
    simp at he
  · rw [hb]
    simp

theorem wellFormed_delete {hash : K → Int} {t t' : HashTable K V} {k : K}
    (hwf : WellFormed hash t) (h : delete hash t k = Except.ok t') :
    WellFormed hash t' := by
  obtain ⟨hz, e, hfind, ht'⟩ := delete_ok_cases h
  have hn : 0 < t.buckets.length := Nat.pos_of_ne_zero hz
  have hi : bIdx hash t.buckets.length k < t.buckets.length := bIdx_lt hash k hn
  have hlen : t'.buckets.length = t.buckets.length := by
    rw [ht']
    exact List.length_set t.buckets _ _
  intro j hj
  rw [hlen] at hj
  rw [hlen]
  by_cases hij : bIdx hash t.buckets.length k = j
  · have hb : bucketAt t' j =
        (bucketAt t (bIdx hash t.buckets.length k)).eraseP (keyMatch k) := by
      rw [ht', bucketAt]
      show (t.buckets.set (bIdx hash t.buckets.length k) _).getD j [] = _
      rw [← hij]
      exact getD_set_self t.buckets _ _ hi
    have hsub :=
      List.eraseP_sublist (l := bucketAt t (bIdx hash t.buckets.length k))
        (p := keyMatch k)
    obtain ⟨hplace, hnd⟩ := hwf (bIdx hash t.buckets.length k) hi
    constructor
    · intro x hx
      rw [hb] at hx
      rw [← hij]
      exact hplace x (hsub.subset hx)
    · rw [hb]
      exact List.Nodup.sublist (hsub.map Prod.fst) hnd
  · have hb : bucketAt t' j = bucketAt t j := by
      rw [ht', bucketAt, bucketAt]
      exact getD_set_ne t.buckets _ _ _ hij
    rw [hb]
    exact hwf j hj

theorem wellFormed_set {hash : K → Int} {t t' : HashTable K V} {k : K} {v : V}
    (hwf : WellFormed hash t) (h : set hash t k v = Except.ok t') :
    WellFormed hash t' := by
  obtain ⟨hz, tm, hlenm, ht', hcase⟩ := set_ok_cases h
  have hn : 0 < t.buckets.length := Nat.pos_of_ne_zero hz
  have hi : bIdx hash t.buckets.length k < t.buckets.length := bIdx_lt hash k hn
  have him : bIdx hash t.buckets.length k < tm.buckets.length := by
    rw [hlenm]
    exact hi
  have hwfm : WellFormed hash tm := by
    rcases hcase with ⟨rfl, _⟩ | ⟨e, hfind, htm⟩
    · exact hwf
    · refine wellFormed_delete (k := k) hwf ?_
      rw [delete_eq_of_find hash t k hz hfind, ← htm]
  have habsent :
      ∀ x ∈ bucketAt tm (bIdx hash t.buckets.length k), keyMatch k x = false := by
    rcases hcase with ⟨rfl, hfind⟩ | ⟨e, hfind, htm⟩
    · intro x hx
      have := List.find?_eq_none.mp hfind x hx
      simpa using this
    · have hbm : bucketAt tm (bIdx hash t.buckets.length k) =
          (bucketAt t (bIdx hash t.buckets.length k)).eraseP (keyMatch k) := by
        rw [htm, bucketAt]
        exact getD_set_self t.buckets _ _ hi
      intro x hx
      rw [hbm] at hx
      have hnone :=
        eraseP_keyMatch_find_none (k := k)
          (hwf (bIdx hash t.buckets.length k) hi).2
      have := List.find?_eq_none.mp hnone x hx
      simpa using this
  have hlen' : t'.buckets.length = t.buckets.length := by
    rw [ht']
    show (tm.buckets.set _ _).length = _
    rw [List.length_set]
    exact hlenm
  intro j hj
  rw [hlen'] at hj
  rw [hlen']
  by_cases hij : bIdx hash t.buckets.length k = j
  · have hb : bucketAt t' j =
        (k, v) :: bucketAt tm (bIdx hash t.buckets.length k) := by
      rw [ht', bucketAt]
      show (tm.buckets.set (bIdx hash t.buckets.length k) _).getD j [] = _
      rw [← hij]
      exact getD_set_self tm.buckets _ _ him
    constructor
    · intro x hx
      rw [hb, List.mem_cons] at hx
      rcases hx with rfl | hx
      · exact hij
      · have := (hwfm (bIdx hash t.buckets.length k) him).1 x hx
        rw [hlenm] at this
        rw [← hij]
        exact this
    · rw [hb, List.map_cons, List.nodup_cons]
      constructor
      · intro hkmem
        obtain ⟨x, hx, hxk⟩ := List.mem_map.mp hkmem
        have := habsent x hx
        simp [keyMatch, hxk] at this
      · exact (hwfm (bIdx hash t.buckets.length k) him).2
  · have hb : bucketAt t' j = bucketAt tm j := by
      rw [ht', bucketAt, bucketAt]
      exact getD_set_ne tm.buckets _ _ _ hij
    rw [hb]
    have := hwfm j (by rw [hlenm]; exact hj)
    rw [hlenm] at this
    exact this

theorem wellFormed_of_reachable {hash : K → Int} {t : HashTable K V}
    (h : Reachable hash t) : WellFormed hash t := by
  induction h with
  | init n => exact wellFormed_mkTable hash n
  | step_set _ hs ih => exact wellFormed_set ih hs
  | step_delete _ hd ih => exact wellFormed_delete ih hd

theorem keyUnique_of_wellFormed {hash : K → Int} {t : HashTable K V}
    (hwf : WellFormed hash t) : KeyUnique t := by
  rw [KeyUnique, items_eq_flatten, List.map_flatten, List.nodup_flatten]
  constructor
  · intro l hl
    obtain ⟨b, hb, rfl⟩ := List.mem_map.mp hl
    obtain ⟨j, hj, rfl⟩ := List.mem_iff_getElem.mp hb
    have := (hwf j hj).2
    rw [bucketAt, List.getD_eq_getElem _ _ hj] at this
    exact this
  · rw [List.pairwise_iff_getElem]
    intro a b ha hb hab
    rw [List.length_map] at ha hb
    intro x hxa hxb
    rw [List.getElem_map] at hxa hxb
    obtain ⟨ea, hea, heak⟩ := List.mem_map.mp hxa
    obtain ⟨eb, heb, hebk⟩ := List.mem_map.mp hxb
    have hia : bIdx hash t.buckets.length ea.1 = a := by
      have := (hwf a ha).1 ea (by rw [bucketAt, List.getD_eq_getElem _ _ ha]; exact hea)
      exact this
    have hib : bIdx hash t.buckets.length eb.1 = b := by
      have := (hwf b hb).1 eb (by rw [bucketAt, List.getD_eq_getElem _ _ hb]; exact heb)
      exact this
    rw [heak] at hia
    rw [hebk] at hib
    rw [hia] at hib
    omega

theorem mem_items_of_mem_bucket {t : HashTable K V} {i : Nat} {x : K × V}
    (hi : i < t.buckets.length) (hx : x ∈ bucketAt t i) : x ∈ items t := by
  rw [items_eq_flatten]
  rw [bucketAt, List.getD_eq_getElem _ _ hi] at hx
  exact List.mem_flatten.mpr ⟨t.buckets[i], List.getElem_mem hi, hx⟩

theorem set_succeeds (hash : K → Int) (t : HashTable K V) (k : K) (v : V)
    (hn : t.buckets.length ≠ 0) :
    ∃ t', set hash t k v = Except.ok t' := by
  cases hfind : (bucketAt t (bIdx hash t.buckets.length k)).find? (keyMatch k) with
  | none => exact ⟨_, set_eq_of_not_contains hash t k v hn hfind⟩
  | some e =>
    rw [set_eq_of_contains hash t k v hn hfind, delete_eq_of_find hash t k hn hfind]
    exact ⟨_, rfl⟩

theorem set_ok_bucket_head {hash : K → Int} {t t' : HashTable K V} {k : K} {v : V}
    (h : set hash t k v = Except.ok t') :
    0 < t.buckets.length ∧
      t'.buckets.length = t.buckets.length ∧
        ∃ rest, bucketAt t' (bIdx hash t.buckets.length k) = (k, v) :: rest := by
  obtain ⟨hz, tm, hlenm, ht', _⟩ := set_ok_cases h
  have hn : 0 < t.buckets.length := Nat.pos_of_ne_zero hz
  have him : bIdx hash t.buckets.length k < tm.buckets.length := by
    rw [hlenm]
    exact bIdx_lt hash k hn
  refine ⟨hn, ?_, bucketAt tm (bIdx hash t.buckets.length k), ?_⟩
  · rw [ht']
    show (tm.buckets.set _ _).length = _
    rw [List.length_set]
    exact hlenm
  · rw [ht', bucketAt]
    exact getD_set_self tm.buckets _ _ him

theorem get_contains_after_set {hash : K → Int} {t t' : HashTable K V} {k : K}
    {v : V} (h : set hash t k v = Except.ok t') :
    get hash t' k = Except.ok v ∧ contains hash t' k = Except.ok true := by
  obtain ⟨hn, hlen, rest, hbucket⟩ := set_ok_bucket_head h
  have hn' : t'.buckets.length ≠ 0 := by
    rw [hlen]
    exact Nat.pos_iff_ne_zero.mp hn
  have hfind :
      (bucketAt t' (bIdx hash t'.buckets.length k)).find? (keyMatch k) =
        some (k, v) := by
    rw [hlen, hbucket]
    exact List.find?_cons_of_pos _ (by simp [keyMatch])
  exact ⟨get_eq_of_find hash t' k hn' hfind,
    by rw [contains_eq_ok hash t' k hn', hfind]; rfl⟩

theorem length_set_of_contains_true {hash : K → Int} {t t' : HashTable K V}
    {k : K} {v : V} (hc : contains hash t k = Except.ok true)
    (h : set hash t k v = Except.ok t') : length t' = length t := by
  by_cases hz : t.buckets.length = 0
  · rw [contains_zero hash t k hz] at hc
    exact absurd hc (by simp)
  have hn : 0 < t.buckets.length := Nat.pos_of_ne_zero hz
  have hi : bIdx hash t.buckets.length k < t.buckets.length := bIdx_lt hash k hn
  rw [contains_eq_ok hash t k hz] at hc
  have hsome :
      ((bucketAt t (bIdx hash t.buckets.length k)).find? (keyMatch k)).isSome =
        true := Except.ok.inj hc
  obtain ⟨e, hfind⟩ := Option.isSome_iff_exists.mp hsome
  rw [set_eq_of_contains hash t k v hz hfind,
    delete_eq_of_find hash t k hz hfind] at h
  have ht' := (Except.ok.inj h).symm
  have hmem := List.mem_of_find?_eq_some hfind
  have hpe := List.find?_some hfind
  have hlenb :
      ((bucketAt t (bIdx hash t.buckets.length k)).eraseP (keyMatch k)).length =
        (bucketAt t (bIdx hash t.buckets.length k)).length - 1 :=
    List.length_eraseP_of_mem hmem hpe
  have hbpos : 0 < (bucketAt t (bIdx hash t.buckets.length k)).length :=
    List.length_pos_of_mem hmem
  have hsum1 :=
    sum_length_set t.buckets (bIdx hash t.buckets.length k)
      ((bucketAt t (bIdx hash t.buckets.length k)).eraseP (keyMatch k)) hi
  have him :
      bIdx hash t.buckets.length k <
        (t.buckets.set (bIdx hash t.buckets.length k)
          ((bucketAt t (bIdx hash t.buckets.length k)).eraseP (keyMatch k))).length := by
    rw [List.length_set]
    exact hi
  have hsum2 :=
    sum_length_set
      (t.buckets.set (bIdx hash t.buckets.length k)
        ((bucketAt t (bIdx hash t.buckets.length k)).eraseP (keyMatch k)))
      (bIdx hash t.buckets.length k)
      ((k, v) :: (bucketAt t (bIdx hash t.buckets.length k)).eraseP (keyMatch k))
      him
  have hbm :
      bucketAt
          (⟨t.buckets.set (bIdx hash t.buckets.length k)
            ((bucketAt t (bIdx hash t.buckets.length k)).eraseP (keyMatch k))⟩ :
            HashTable K V)
          (bIdx hash t.buckets.length k) =
        (bucketAt t (bIdx hash t.buckets.length k)).eraseP (keyMatch k) := by
    rw [bucketAt]
    exact getD_set_self t.buckets _ _ hi
  rw [ht', length_eq_sum, length_eq_sum]
  rw [hbm]
  show
    (List.map List.length
        ((t.buckets.set (bIdx hash t.buckets.length k)
            ((bucketAt t (bIdx hash t.buckets.length k)).eraseP (keyMatch k))).set
          (bIdx hash t.buckets.length k)
          ((k, v) ::
            (bucketAt t (bIdx hash t.buckets.length k)).eraseP (keyMatch k)))).sum =
      (List.map List.length t.buckets).sum
  have hgd :
      (t.buckets.set (bIdx hash t.buckets.length k)
          ((bucketAt t (bIdx hash t.buckets.length k)).eraseP (keyMatch k))).getD
        (bIdx hash t.buckets.length k) [] =
        (bucketAt t (bIdx hash t.buckets.length k)).eraseP (keyMatch k) :=
    getD_set_self t.buckets _ _ hi
  rw [hgd] at hsum2
  rw [show t.buckets.getD (bIdx hash t.buckets.length k) [] =
    bucketAt t (bIdx hash t.buckets.length k) from rfl] at hsum1
  simp only [List.length_cons] at hsum2
  omega

theorem contains_get_after_delete {hash : K → Int} {t t' : HashTable K V} {k : K}
    (hwf : WellFormed hash t) (h : delete hash t k = Except.ok t') :
    contains hash t' k = Except.ok false ∧
      get hash t' k = Except.error HTError.keyNotFound := by
  obtain ⟨hz, e, hfind, ht'⟩ := delete_ok_cases h
  have hn : 0 < t.buckets.length := Nat.pos_of_ne_zero hz
  have hi : bIdx hash t.buckets.length k < t.buckets.length := bIdx_lt hash k hn
  have hlen' : t'.buckets.length = t.buckets.length := by
    rw [ht']
    exact List.length_set t.buckets _ _
  have hz' : t'.buckets.length ≠ 0 := by
    rw [hlen']
    exact hz
  have hb' : bucketAt t' (bIdx hash t'.buckets.length k) =
      (bucketAt t (bIdx hash t.buckets.length k)).eraseP (keyMatch k) := by
    rw [hlen', ht', bucketAt]
    exact getD_set_self t.buckets _ _ hi
  have hnone :
      (bucketAt t' (bIdx hash t'.buckets.length k)).find? (keyMatch k) = none := by
    rw [hb']
    exact eraseP_keyMatch_find_none (hwf _ hi).2
  constructor
  · rw [contains_eq_ok hash t' k hz', hnone]
    rfl
  · exact get_eq_of_none hash t' k hz' hnone

/-- C1: for every key `k` and value `v`, on any table with at least one
bucket, `set(k, v)` succeeds, and afterwards `get(k)` returns `v` and
`contains(k)` returns true. -/
theorem set_get_roundTrip (hash : K → Int) (t : HashTable K V) (k : K) (v : V)
    (hn : 0 < bucketCount t) :
    ∃ t',
      set hash t k v = Except.ok t' ∧
        get hash t' k = Except.ok v ∧ contains hash t' k = Except.ok true := by
  obtain ⟨t', hs⟩ := set_succeeds hash t k v (Nat.pos_iff_ne_zero.mp hn)
  exact ⟨t', hs, (get_contains_after_set hs).1, (get_contains_after_set hs).2⟩

/-- C2: on a reachable table, `set(k, v1)` followed by `set(k, v2)` leaves
exactly one entry whose key is `k` in the whole table, `get(k)` then returns
`v2`, and `length()` is the same after the second `set` as after the first. -/
theorem upsert_single_entry (hash : K → Int) (t : HashTable K V) (k : K)
    (v1 v2 : V) (hR : Reachable hash t) (hn : 0 < bucketCount t) :
    ∃ t1 t2,
      set hash t k v1 = Except.ok t1 ∧
        set hash t1 k v2 = Except.ok t2 ∧
          (items t2).countP (keyMatch k) = 1 ∧
            get hash t2 k = Except.ok v2 ∧ length t2 = length t1 := by
  obtain ⟨t1, hs1⟩ := set_succeeds hash t k v1 (Nat.pos_iff_ne_zero.mp hn)
  have hlen1 : t1.buckets.length = t.buckets.length :=
    (set_ok_bucket_head hs1).2.1
  obtain ⟨t2, hs2⟩ := set_succeeds hash t1 k v2
    (by rw [hlen1]; exact Nat.pos_iff_ne_zero.mp hn)
  have hc1 : contains hash t1 k = Except.ok true := (get_contains_after_set hs1).2
  have hR2 : Reachable hash t2 :=
    Reachable.step_set (Reachable.step_set hR hs1) hs2
  have hku : ((items t2).map Prod.fst).Nodup :=
    keyUnique_of_wellFormed (wellFormed_of_reachable hR2)
  obtain ⟨hn1, hlen2, rest, hbucket⟩ := set_ok_bucket_head hs2
  have hmem : (k, v2) ∈ items t2 := by
    refine mem_items_of_mem_bucket (i := bIdx hash t1.buckets.length k) ?_ ?_
    · rw [hlen2]
      exact bIdx_lt hash k hn1
    · rw [hbucket]
      exact List.mem_cons_self _ _
  exact ⟨t1, t2, hs1, hs2, countP_keyMatch_of_nodup hku hmem,
    (get_contains_after_set hs2).1, length_set_of_contains_true hc1 hs2⟩

/-- C3: on a reachable table containing key `k`, `delete(k)` succeeds and
afterwards `contains(k)` returns false and `get(k)` fails with KeyNotFound. -/
theorem delete_removes_key (hash : K → Int) (t : HashTable K V) (k : K)
    (hR : Reachable hash t) (hc : contains hash t k = Except.ok true) :
    ∃ t',
      delete hash t k = Except.ok t' ∧
        contains hash t' k = Except.ok false ∧
          get hash t' k = Except.error HTError.keyNotFound := by
  by_cases hz : t.buckets.length = 0
  · rw [contains_zero hash t k hz] at hc
    exact absurd hc (by simp)
  rw [contains_eq_ok hash t k hz] at hc
  obtain ⟨e, hfind⟩ := Option.isSome_iff_exists.mp (Except.ok.inj hc)
  have hdel := delete_eq_of_find hash t k hz hfind
  obtain ⟨h1, h2⟩ :=
    contains_get_after_delete (wellFormed_of_reachable hR) hdel
  exact ⟨_, hdel, h1, h2⟩

/-- C4: when `contains(k)` reports the key absent, `get(k)` and `delete(k)`
both fail with KeyNotFound; `get` never silently returns a default value. -/
theorem missing_key_get_delete_fail (hash : K → Int) (t : HashTable K V) (k : K)
    (hc : contains hash t k = Except.ok false) :
    get hash t k = Except.error HTError.keyNotFound ∧
      delete hash t k = Except.error HTError.keyNotFound := by
  by_cases hz : t.buckets.length = 0
  · rw [contains_zero hash t k hz] at hc
    exact absurd hc (by simp)
  rw [contains_eq_ok hash t k hz] at hc
  have hfalse := Except.ok.inj hc
  have hfind :
      (bucketAt t (bIdx hash t.buckets.length k)).find? (keyMatch k) = none := by
    cases hf : (bucketAt t (bIdx hash t.buckets.length k)).find? (keyMatch k) with
    | none => rfl
    | some e =>
      rw [hf] at hfalse
      simp at hfalse
  exact ⟨get_eq_of_none hash t k hz hfind, delete_eq_of_none hash t k hz hfind⟩

/-- C5: in every table reachable from construction by any sequence of `set`
and `delete` calls, each key appears in at most one bucket and at most once
within that bucket. -/
theorem reachable_keyUnique (hash : K → Int) (t : HashTable K V)
    (hR : Reachable hash t) : KeyUnique t :=
  keyUnique_of_wellFormed (wellFormed_of_reachable hR)

/-- C6: on every reachable table, `length()` equals the sum of all bucket
sizes, which equals the number of entries (`len(items())` and `len(keys())`),
which equals the number of distinct keys currently set. -/
theorem length_count_invariant (hash : K → Int) (t : HashTable K V)
    (hR : Reachable hash t) :
    length t = (t.buckets.map List.length).sum ∧
      length t = (items t).length ∧
        length t = (keys t).length ∧
          length t = ((items t).map Prod.fst).dedup.length := by
  have h1 := length_eq_sum t
  have h2 : (items t).length = (t.buckets.map List.length).sum := by
    rw [items_eq_flatten, List.length_flatten]
  have h3 : (keys t).length = (items t).length := by
    rw [keys_eq_map, List.length_map]
  have hnd : ((items t).map Prod.fst).Nodup :=
    keyUnique_of_wellFormed (wellFormed_of_reachable hR)
  have h4 : ((items t).map Prod.fst).dedup.length = (items t).length := by
    rw [List.dedup_eq_self.mpr hnd, List.length_map]
  refine ⟨h1, ?_, ?_, ?_⟩ <;> omega

/-- C7: with at least one bucket, `bucket_index(k)` equals
`hash(k) mod bucket_count`, lies in `[0, bucket_count)`, and two successive
calls on an unmodified table return the same value. -/
theorem bucketIndex_mod_spec (hash : K → Int) (t : HashTable K V) (k : K)
    (hn : 0 < bucketCount t) :
    bucketIndex hash t k =
        Except.ok ((hash k).emod (bucketCount t : Int)).toNat ∧
      ((hash k).emod (bucketCount t : Int)).toNat < bucketCount t ∧
        bucketIndex hash t k = bucketIndex hash t k :=
  ⟨bucketIndex_eq_ok hash t k (Nat.pos_iff_ne_zero.mp hn), bIdx_lt hash k hn, rfl⟩

/-- C8: after a successful `set(k, v)`, the entry `(k, v)` is the first entry
of its bucket in front-to-back order (update is delete-then-prepend). -/
theorem set_entry_at_front (hash : K → Int) (t t' : HashTable K V) (k : K)
    (v : V) (h : set hash t k v = Except.ok t') :
    ∃ rest, bucketAt t' (bIdx hash (bucketCount t') k) = (k, v) :: rest := by
  obtain ⟨hn, hlen, rest, hbucket⟩ := set_ok_bucket_head h
  refine ⟨rest, ?_⟩
  show bucketAt t' (bIdx hash t'.buckets.length k) = _
  rw [hlen]
  exact hbucket

/-- C9: the string form is `{key1: value1, key2: value2, ...}` listing the
entries in the canonical `items()` traversal order (bucket-array order, then
front-to-back within each bucket), each key and value rendered by the given
textual representation. -/
theorem strRepr_items_order (reprK : K → String) (reprV : V → String)
    (t : HashTable K V) :
    strRepr reprK reprV t =
      "\x7b" ++
          String.intercalate ", "
            (t.buckets.flatten.map fun e => reprK e.1 ++ ": " ++ reprV e.2) ++
        "\x7d" := by
  rw [strRepr, items_eq_flatten]

/-- C10: the constructor does not validate `init_size`: a table with 0 buckets
is created successfully, and then `contains`, `get`, `set` and `delete` on any
key all fail with the modulo-by-zero error from `_bucket_index`, not with
KeyNotFound. -/
theorem zero_buckets_all_ops_fail (hash : K → Int) (k : K) (v : V) :
    (mkTable K V 0).buckets = [] ∧
      contains hash (mkTable K V 0) k = Except.error HTError.zeroDivision ∧
        get hash (mkTable K V 0) k = Except.error HTError.zeroDivision ∧
          set hash (mkTable K V 0) k v = Except.error HTError.zeroDivision ∧
            delete hash (mkTable K V 0) k = Except.error HTError.zeroDivision ∧
              HTError.zeroDivision ≠ HTError.keyNotFound := by
  have hz : (mkTable K V 0).buckets.length = 0 := by
    simp [mkTable]
  exact ⟨by simp [mkTable], contains_zero hash _ k hz, get_zero hash _ k hz,
    set_zero hash _ k v hz, delete_zero hash _ k hz, by simp⟩

/-- Witness for C1 at the concrete table with 2 buckets, key 1, value 5. -/
theorem set_get_roundTrip_witness :
    0 < bucketCount (mkTable Nat Nat 2) ∧
      ∃ t',
        set natHash (mkTable Nat Nat 2) 1 5 = Except.ok t' ∧
          get natHash t' 1 = Except.ok 5 ∧ contains natHash t' 1 = Except.ok true :=
  ⟨by decide, set_get_roundTrip natHash (mkTable Nat Nat 2) 1 5 (by decide)⟩

/-- Witness for C2 at the concrete empty 2-bucket table, key 1, values 5, 7. -/
theorem upsert_single_entry_witness :
    Reachable natHash (mkTable Nat Nat 2) ∧
      0 < bucketCount (mkTable Nat Nat 2) ∧
        ∃ t1 t2,
          set natHash (mkTable Nat Nat 2) 1 5 = Except.ok t1 ∧
            set natHash t1 1 7 = Except.ok t2 ∧
              (items t2).countP (keyMatch 1) = 1 ∧
                get natHash t2 1 = Except.ok 7 ∧ length t2 = length t1 :=
  ⟨Reachable.init 2, by decide,
    upsert_single_entry natHash (mkTable Nat Nat 2) 1 5 7 (Reachable.init 2)
      (by decide)⟩

/-- Witness for C3 at the reachable table holding only the entry (1, 5). -/
theorem delete_removes_key_witness :
    Reachable natHash (⟨[[], [(1, 5)]]⟩ : HashTable Nat Nat) ∧
      contains natHash (⟨[[], [(1, 5)]]⟩ : HashTable Nat Nat) 1 = Except.ok true ∧
        ∃ t',
          delete natHash (⟨[[], [(1, 5)]]⟩ : HashTable Nat Nat) 1 = Except.ok t' ∧
            contains natHash t' 1 = Except.ok false ∧
              get natHash t' 1 = Except.error HTError.keyNotFound :=
  have hr : Reachable natHash (⟨[[], [(1, 5)]]⟩ : HashTable Nat Nat) :=
    Reachable.step_set (Reachable.init 2)
      (show set natHash (mkTable Nat Nat 2) 1 5 =
          Except.ok (⟨[[], [(1, 5)]]⟩ : HashTable Nat Nat) from rfl)
  ⟨hr, rfl, delete_removes_key natHash (⟨[[], [(1, 5)]]⟩ : HashTable Nat Nat) 1 hr rfl⟩

/-- Witness for C4 at the empty 2-bucket table and the never-set key 3. -/
theorem missing_key_get_delete_fail_witness :
    contains natHash (mkTable Nat Nat 2) 3 = Except.ok false ∧
      get natHash (mkTable Nat Nat 2) 3 = Except.error HTError.keyNotFound ∧
        delete natHash (mkTable Nat Nat 2) 3 = Except.error HTError.keyNotFound :=
  ⟨rfl, missing_key_get_delete_fail natHash (mkTable Nat Nat 2) 3 rfl⟩

/-- Witness for C5 at the reachable table holding only the entry (1, 5). -/
theorem reachable_keyUnique_witness :
    Reachable natHash (⟨[[], [(1, 5)]]⟩ : HashTable Nat Nat) ∧
      KeyUnique (⟨[[], [(1, 5)]]⟩ : HashTable Nat Nat) :=
  have hr : Reachable natHash (⟨[[], [(1, 5)]]⟩ : HashTable Nat Nat) :=
    Reachable.step_set (Reachable.init 2)
      (show set natHash (mkTable Nat Nat 2) 1 5 =
          Except.ok (⟨[[], [(1, 5)]]⟩ : HashTable Nat Nat) from rfl)
  ⟨hr, reachable_keyUnique natHash (⟨[[], [(1, 5)]]⟩ : HashTable Nat Nat) hr⟩

/-- Witness for C6 at the reachable table holding only the entry (1, 5). -/
theorem length_count_invariant_witness :
    Reachable natHash (⟨[[], [(1, 5)]]⟩ : HashTable Nat Nat) ∧
      (length (⟨[[], [(1, 5)]]⟩ : HashTable Nat Nat) =
          ((⟨[[], [(1, 5)]]⟩ : HashTable Nat Nat).buckets.map List.length).sum ∧
        length (⟨[[], [(1, 5)]]⟩ : HashTable Nat Nat) =
            (items (⟨[[], [(1, 5)]]⟩ : HashTable Nat Nat)).length ∧
          length (⟨[[], [(1, 5)]]⟩ : HashTable Nat Nat) =
              (keys (⟨[[], [(1, 5)]]⟩ : HashTable Nat Nat)).length ∧
            length (⟨[[], [(1, 5)]]⟩ : HashTable Nat Nat) =
              ((items (⟨[[], [(1, 5)]]⟩ : HashTable Nat Nat)).map
                  Prod.fst).dedup.length) :=
  have hr : Reachable natHash (⟨[[], [(1, 5)]]⟩ : HashTable Nat Nat) :=
    Reachable.step_set (Reachable.init 2)
      (show set natHash (mkTable Nat Nat 2) 1 5 =
          Except.ok (⟨[[], [(1, 5)]]⟩ : HashTable Nat Nat) from rfl)
  ⟨hr, length_count_invariant natHash (⟨[[], [(1, 5)]]⟩ : HashTable Nat Nat) hr⟩

/-- Witness for C7 at the 2-bucket table and key 1. -/
theorem bucketIndex_mod_spec_witness :
    0 < bucketCount (mkTable Nat Nat 2) ∧
      (bucketIndex natHash (mkTable Nat Nat 2) 1 =
          Except.ok
            ((natHash 1).emod (bucketCount (mkTable Nat Nat 2) : Int)).toNat ∧
        ((natHash 1).emod (bucketCount (mkTable Nat Nat 2) : Int)).toNat <
            bucketCount (mkTable Nat Nat 2) ∧
          bucketIndex natHash (mkTable Nat Nat 2) 1 =
            bucketIndex natHash (mkTable Nat Nat 2) 1) :=
  ⟨by decide, bucketIndex_mod_spec natHash (mkTable Nat Nat 2) 1 (by decide)⟩

/-- Witness for C8 at the concrete `set` that produces the entry (1, 5). -/
theorem set_entry_at_front_witness :
    set natHash (mkTable Nat Nat 2) 1 5 =
        Except.ok (⟨[[], [(1, 5)]]⟩ : HashTable Nat Nat) ∧
      ∃ rest,
        bucketAt (⟨[[], [(1, 5)]]⟩ : HashTable Nat Nat)
            (bIdx natHash (bucketCount (⟨[[], [(1, 5)]]⟩ : HashTable Nat Nat)) 1) =
          (1, 5) :: rest :=
  have hs : set natHash (mkTable Nat Nat 2) 1 5 =
      Except.ok (⟨[[], [(1, 5)]]⟩ : HashTable Nat Nat) := rfl
  ⟨hs, set_entry_at_front natHash (mkTable Nat Nat 2)
    (⟨[[], [(1, 5)]]⟩ : HashTable Nat Nat) 1 5 hs⟩

end HashTable
